import Mathlib

/-
  Verification development for the markchecker2 bulk product-lookup service
  (src/app.py).  The core pipeline is embedded shallowly:

  * the Term Parser (app.py, parse_search_terms, lines 360-399),
  * the Resilient Product Fetcher (fetch_product_data, lines 402-502,
    and extract_product_fields, lines 504-551),
  * the Product Normalizer (extract_product_info, lines 553-609),
  * the Chunk Orchestrator (process_term, lines 611-720, and the
    process_chunk request handler, lines 777-864).

  Modelling conventions:
  * Python strings are `List Char` internally; terms and map keys are `String`.
  * Python dicts holding product records become a structure with `Option`
    fields (key absent or valued None collapse to `none` except where the
    code distinguishes them, which is modelled with nested options).
  * Monetary amounts are exact rationals.  Decimal-string parsing of the
    amounts used by the claims is exact in binary floating point as well
    (8.00, 10.00, 0, 10, and the comparison direction of `>` is preserved
    by rounding), so the rational embedding is faithful for the claims.
  * `json.loads` is an external library call; it is a parameter
    `jparse : List Char -> Option RawProduct` of the fetcher.
  * The only exception the embedded code can raise is the uncaught
    ZeroDivisionError in the discount computation; functions that can
    raise return `Option`/`none` for that case.  Network outcomes are the
    `FetchOutcome` datum.
  * Scanning loops that restart after a nonempty match use a fuel
    parameter initialised to the input length; every step consumes at
    least one character, so the fuel never runs out.
-/

namespace Markchecker

/-! ### Character classes (Python `\s`, `\d`, `\w`) -/

def isSpaceC (c : Char) : Bool :=
  c = ' ' || c = '\t' || c = '\n' || c = '\r' || c = '\x0b' || c = '\x0c'

def isWordC (c : Char) : Bool :=
  c.isAlphanum || c = '_'

/-- Literal-substring test, Python `pat in s` for the prefix position. -/
def isPrefixList : List Char → List Char → Bool
  | [], _ => true
  | _ :: _, [] => false
  | a :: as, b :: bs => a == b && isPrefixList as bs

/-- Python substring containment `pat in s`. -/
def hasSub (pat : List Char) : List Char → Bool
  | [] => isPrefixList pat []
  | s@(_ :: rest) => isPrefixList pat s || hasSub pat rest

/-- Python `str.strip()` with the default whitespace set. -/
def trimC (s : List Char) : List Char :=
  ((s.dropWhile isSpaceC).reverse.dropWhile isSpaceC).reverse

/-! ### Term Parser (app.py lines 360-399) -/

/-- Match of the regex `\d+EA` at the head of the input: a maximal
nonempty digit run followed by the literal `EA`.  (Backtracking cannot
produce any other match here because a shorter digit run is followed by a
digit, not by `E`.)  Returns the matched text and the rest. -/
def eaMatchAt (s : List Char) : Option (List Char × List Char) :=
  let ds := s.takeWhile Char.isDigit
  let r1 := s.dropWhile Char.isDigit
  match ds, r1 with
  | [], _ => none
  | _ :: _, 'E' :: 'A' :: r2 => some (ds ++ ['E', 'A'], r2)
  | _, _ => none

/-- `re.sub(r'(\d+EA)', r'\1 ', s)`: insert a space after every
non-overlapping `\d+EA` match (app.py line 366). -/
def subEAGo : ℕ → List Char → List Char
  | 0, s => s
  | _ + 1, [] => []
  | fuel + 1, c :: cs =>
    match eaMatchAt (c :: cs) with
    | some (m, rest) => m ++ ' ' :: subEAGo fuel rest
    | none => c :: subEAGo fuel cs

/-- `re.split(r'[,\n]', s)` (app.py line 371); keeps empty pieces, which the
trim-and-filter stage later drops. -/
def splitCommaNL (acc : List Char) : List Char → List (List Char)
  | [] => [acc.reverse]
  | c :: cs =>
    if c = ',' || c = '\n' then acc.reverse :: splitCommaNL [] cs
    else splitCommaNL (c :: acc) cs

/-- Match of `\b\d+EA\b` at the head of the input given whether the
preceding character was a word character. -/
def eaWordAt (prevWord : Bool) (s : List Char) : Option (List Char × List Char) :=
  if prevWord then none
  else
    let ds := s.takeWhile Char.isDigit
    let r1 := s.dropWhile Char.isDigit
    match ds, r1 with
    | [], _ => none
    | _ :: _, 'E' :: 'A' :: r2 =>
      match r2 with
      | [] => some (ds ++ ['E', 'A'], [])
      | d :: _ => if isWordC d then none else some (ds ++ ['E', 'A'], r2)
    | _, _ => none

/-- `re.findall(r'\b\d+EA\b', s)` (app.py line 373). -/
def findallEAGo : ℕ → Bool → List Char → List (List Char)
  | 0, _, _ => []
  | _ + 1, _, [] => []
  | fuel + 1, prevWord, c :: cs =>
    match eaWordAt prevWord (c :: cs) with
    | some (m, rest) => m :: findallEAGo fuel true rest
    | none => findallEAGo fuel (isWordC c) cs

/-- Python `str.split()` with no argument: split on whitespace runs,
dropping empty pieces (app.py line 379). -/
def pySplitGo (acc : List Char) : List Char → List (List Char)
  | [] => if acc.isEmpty then [] else [acc.reverse]
  | c :: cs =>
    if isSpaceC c then
      if acc.isEmpty then pySplitGo [] cs else acc.reverse :: pySplitGo [] cs
    else pySplitGo (c :: acc) cs

def eaLit : List Char := 'E' :: 'A' :: []

/-- The splitting stage of `parse_search_terms` (app.py lines 362-381):
returns the raw candidate pieces before trimming plus the
`contains_ea_codes` flag. -/
def rawSplitTerms (search_input : String) : List (List Char) × Bool :=
  let s0 := search_input.data
  let hasEA := hasSub eaLit s0
  let s1 := if hasEA then subEAGo s0.length s0 else s0
  if s1.contains ',' || s1.contains '\n' then (splitCommaNL [] s1, hasEA)
  else
    let codes := findallEAGo s1.length false s1
    if !codes.isEmpty then (codes, true)
    else if decide (s1.length > 50) && s1.contains ' ' then (pySplitGo [] s1, hasEA)
    else ([s1], hasEA)

/-- The trimmed, nonempty split candidates
(`terms = [term.strip() for term in terms if term.strip()]`, app.py line 383). -/
def splitCandidates (s : String) : List String :=
  (((rawSplitTerms s).1).map (fun t => String.mk (trimC t))).filter (fun t => !t.isEmpty)

/-- The dedup loop of `parse_search_terms` (app.py lines 386-395): first
component the unique terms in first-occurrence order, second component
every later repeat in scan order.  `seen` is the set of already-seen terms
(always the set of terms collected so far). -/
def dedupAux (seen : List String) : List String → List String × List String
  | [] => ([], [])
  | t :: ts =>
    if t ∈ seen then
      let p := dedupAux seen ts
      (p.1, t :: p.2)
    else
      let p := dedupAux (t :: seen) ts
      (t :: p.1, p.2)

def parseUniq (s : String) : List String :=
  (dedupAux [] (splitCandidates s)).1

def parseDups (s : String) : List String :=
  (dedupAux [] (splitCandidates s)).2

/-- `parse_search_terms` (app.py lines 360-399): unique terms, duplicate
count, dense-code flag, duplicates. -/
def parse_search_terms (s : String) : List String × ℕ × Bool × List String :=
  (parseUniq s, (splitCandidates s).length - (parseUniq s).length,
   (rawSplitTerms s).2, parseDups s)

/-! ### Properties of the dedup loop -/

theorem dedupAux_mem_uniq (l : List String) :
    ∀ seen x, x ∈ (dedupAux seen l).1 → x ∈ l ∧ x ∉ seen := by
  induction l with
  | nil => intro seen x h; simp [dedupAux] at h
  | cons t ts ih =>
    intro seen x h
    by_cases hseen : t ∈ seen
    · simp only [dedupAux, if_pos hseen] at h
      rcases ih seen x h with ⟨h1, h2⟩
      exact ⟨List.mem_cons_of_mem _ h1, h2⟩
    · simp only [dedupAux, if_neg hseen] at h
      rcases List.mem_cons.mp h with rfl | h
      · exact ⟨List.mem_cons_self _ _, hseen⟩
      · rcases ih (t :: seen) x h with ⟨h1, h2⟩
        refine ⟨List.mem_cons_of_mem _ h1, ?_⟩
        intro hx
        exact h2 (List.mem_cons_of_mem _ hx)

theorem dedupAux_nodup (l : List String) :
    ∀ seen, (dedupAux seen l).1.Nodup := by
  induction l with
  | nil => intro seen; simp [dedupAux]
  | cons t ts ih =>
    intro seen
    by_cases hseen : t ∈ seen
    · simpa only [dedupAux, if_pos hseen] using ih seen
    · simp only [dedupAux, if_neg hseen]
      refine List.nodup_cons.mpr ⟨?_, ih (t :: seen)⟩
      intro hmem
      exact (dedupAux_mem_uniq ts (t :: seen) t hmem).2 (List.mem_cons_self _ _)

theorem dedupAux_sublist (l : List String) :
    ∀ seen, List.Sublist (dedupAux seen l).1 l ∧ List.Sublist (dedupAux seen l).2 l := by
  induction l with
  | nil => intro seen; simp [dedupAux]
  | cons t ts ih =>
    intro seen
    by_cases hseen : t ∈ seen
    · simp only [dedupAux, if_pos hseen]
      exact ⟨(ih seen).1.cons t, (ih seen).2.cons₂ t⟩
    · simp only [dedupAux, if_neg hseen]
      exact ⟨(ih (t :: seen)).1.cons₂ t, (ih (t :: seen)).2.cons t⟩

theorem dedupAux_length (l : List String) :
    ∀ seen, (dedupAux seen l).1.length + (dedupAux seen l).2.length = l.length := by
  induction l with
  | nil => intro seen; simp [dedupAux]
  | cons t ts ih =>
    intro seen
    by_cases hseen : t ∈ seen
    · simp only [dedupAux, if_pos hseen, List.length_cons]
      have := ih seen
      omega
    · simp only [dedupAux, if_neg hseen, List.length_cons]
      have := ih (t :: seen)
      omega

theorem dedupAux_mem_total (l : List String) :
    ∀ seen x, x ∈ l → x ∈ (dedupAux seen l).1 ∨ x ∈ seen := by
  induction l with
  | nil => intro seen x h; simp at h
  | cons t ts ih =>
    intro seen x h
    by_cases hseen : t ∈ seen
    · simp only [dedupAux, if_pos hseen]
      rcases List.mem_cons.mp h with rfl | h
      · exact Or.inr hseen
      · exact ih seen x h
    · simp only [dedupAux, if_neg hseen]
      rcases List.mem_cons.mp h with rfl | h
      · exact Or.inl (List.mem_cons_self _ _)
      · rcases ih (t :: seen) x h with h1 | h1
        · exact Or.inl (List.mem_cons_of_mem _ h1)
        · rcases List.mem_cons.mp h1 with rfl | h2
          · exact Or.inl (List.mem_cons_self _ _)
          · exact Or.inr h2

/-- Once a term is in `seen`, all its occurrences go to the duplicates list. -/
theorem dedupAux_count_in (l : List String) :
    ∀ seen x, x ∈ seen →
      (dedupAux seen l).1.count x = 0 ∧ (dedupAux seen l).2.count x = l.count x := by
  induction l with
  | nil => intro seen x _; simp [dedupAux]
  | cons t ts ih =>
    intro seen x hx
    by_cases hseen : t ∈ seen
    · simp only [dedupAux, if_pos hseen]
      have := ih seen x hx
      rw [List.count_cons, List.count_cons]
      exact ⟨this.1, by simp [this.2]⟩
    · have hne : x ≠ t := fun h => hseen (h ▸ hx)
      have hne2 : ¬t = x := fun h => hne h.symm
      simp only [dedupAux, if_neg hseen]
      have := ih (t :: seen) x (List.mem_cons_of_mem _ hx)
      rw [List.count_cons, List.count_cons]
      constructor
      · simp [this.1, hne2]
      · simp [this.2, hne2]

theorem dedupAux_count_notin (l : List String) :
    ∀ seen x, x ∉ seen →
      (dedupAux seen l).1.count x + (dedupAux seen l).2.count x = l.count x := by
  induction l with
  | nil => intro seen x _; simp [dedupAux]
  | cons t ts ih =>
    intro seen x hx
    by_cases hseen : t ∈ seen
    · have hne : t ≠ x := fun h => hx (h ▸ hseen)
      simp only [dedupAux, if_pos hseen]
      rw [List.count_cons, List.count_cons]
      have := ih seen x hx
      simp only [beq_iff_eq]
      rw [if_neg hne]
      omega
    · simp only [dedupAux, if_neg hseen]
      by_cases hxt : x = t
      · subst hxt
        have h0 := dedupAux_count_in ts (x :: seen) x (List.mem_cons_self _ _)
        rw [List.count_cons, List.count_cons]
        simp only [h0.1, h0.2]
        simp
        omega
      · have hne2 : ¬t = x := fun h => hxt h.symm
        have := ih (t :: seen) x (by
          intro hmem
          rcases List.mem_cons.mp hmem with h | h
          · exact hxt h
          · exact hx h)
        rw [List.count_cons, List.count_cons]
        simp only [beq_iff_eq]
        rw [if_neg hne2]
        omega

/-- Claim C4: `parse_search_terms` is a pure function of its input (in this
embedding it is a Lean function, so determinism is definitional); the
returned term list has no repeated elements and is a sublist of the raw
split candidates (hence preserves their first-occurrence order); every
candidate occurs in the returned list; every subsequent repeat of an
already-seen term goes to the duplicates list (the occurrence counts of
unique terms and duplicates add up to the candidate counts, and the
duplicates are themselves a sublist of the candidates); and
duplicateCount + |unique terms| = |raw split candidates|. -/
theorem C4_parser_determinism_dedup (s : String) :
    (parseUniq s).Nodup
    ∧ List.Sublist (parseUniq s) (splitCandidates s)
    ∧ List.Sublist (parseDups s) (splitCandidates s)
    ∧ (∀ x, x ∈ splitCandidates s ↔ x ∈ parseUniq s)
    ∧ (∀ x, (splitCandidates s).count x = (parseUniq s).count x + (parseDups s).count x)
    ∧ (parse_search_terms s).2.1 + (parseUniq s).length = (splitCandidates s).length
    ∧ (parse_search_terms s).2.1 = (parseDups s).length := by
  have hlen : (parseUniq s).length + (parseDups s).length = (splitCandidates s).length :=
    dedupAux_length (splitCandidates s) []
  have hdc : (parse_search_terms s).2.1 =
      (splitCandidates s).length - (parseUniq s).length := rfl
  refine ⟨dedupAux_nodup _ [], (dedupAux_sublist _ []).1, (dedupAux_sublist _ []).2,
    ?_, ?_, ?_, ?_⟩
  · intro x
    constructor
    · intro hx
      rcases dedupAux_mem_total (splitCandidates s) [] x hx with h | h
      · exact h
      · simp at h
    · intro hx
      exact (dedupAux_mem_uniq (splitCandidates s) [] x hx).1
  · intro x
    exact (dedupAux_count_notin (splitCandidates s) [] x (by simp)).symm
  · rw [hdc]
    omega
  · rw [hdc]
    omega

/-- Claim C8: the separator-free input `"123EA456EA"` parses to exactly the
terms `["123EA", "456EA"]`, with the dense-code flag set and duplicate
count 0 (app.py lines 360-399). -/
theorem C8_dense_code_detection :
    parse_search_terms "123EA456EA" = (["123EA", "456EA"], 0, true, []) := by
  decide

/-! ### Numeric model: Python `float(...)`, `int(...)`, `round(...)` -/

def digitsToNat (ds : List Char) : ℕ :=
  ds.foldl (fun a c => a * 10 + (c.toNat - 48)) 0

/-- Mantissa of a decimal literal: `digits`, `digits.digits`, `digits.` or
`.digits`.  Returns the integer digit string, the fraction length, and the
unconsumed rest; the mantissa value is `digits / 10 ^ fracLen`.
(All arithmetic is staged through `mkRat` because the `Rat` field
operations are irreducible and could not be evaluated by `decide`.) -/
def parseDecCore (s : List Char) : Option (ℕ × ℕ × List Char) :=
  let ip := s.takeWhile Char.isDigit
  let rest := s.dropWhile Char.isDigit
  match rest with
  | '.' :: r2 =>
    let fp := r2.takeWhile Char.isDigit
    let r3 := r2.dropWhile Char.isDigit
    if ip.isEmpty && fp.isEmpty then none
    else some (digitsToNat (ip ++ fp), fp.length, r3)
  | _ => if ip.isEmpty then none else some (digitsToNat ip, 0, rest)

def parseExpPart : List Char → Option (ℤ × List Char)
  | 'e' :: r | 'E' :: r =>
    let sgnAndRest : ℤ × List Char :=
      match r with
      | '+' :: rr => (1, rr)
      | '-' :: rr => (-1, rr)
      | rr => (1, rr)
    let ds := sgnAndRest.2.takeWhile Char.isDigit
    if ds.isEmpty then none
    else some (sgnAndRest.1 * (digitsToNat ds : ℤ), sgnAndRest.2.dropWhile Char.isDigit)
  | r => some (0, r)

/-- Python `float(str)` restricted to finite decimal/exponent literals
(the special spellings `inf`/`nan` and digit underscores are not modelled;
no claim touches them).  The result is the exact value
`sgn * digits / 10 ^ fracLen * 10 ^ exp`; for every comparison and
specific value appearing in the claims the binary floating point result
agrees with the exact rational one (decimal-to-double conversion is
monotone and the claim values convert exactly). -/
def parseFloatStr (s : String) : Option ℚ :=
  let t0 := s.data.dropWhile isSpaceC
  let sgnAndRest : ℤ × List Char :=
    match t0 with
    | '+' :: r => (1, r)
    | '-' :: r => (-1, r)
    | r => (1, r)
  match parseDecCore sgnAndRest.2 with
  | none => none
  | some (d, f, r2) =>
    match parseExpPart r2 with
    | none => none
    | some (e, r3) =>
      if (r3.dropWhile isSpaceC).isEmpty then
        if 0 ≤ e then some (mkRat (sgnAndRest.1 * d * 10 ^ e.toNat) (10 ^ f))
        else some (mkRat (sgnAndRest.1 * d) (10 ^ f * 10 ^ (-e).toNat))
      else none

/-- Python `int(str)`: optional surrounding whitespace, optional sign,
nonempty digit run (digit underscores not modelled). -/
def pyIntParse (s : String) : Option ℤ :=
  let t0 := s.data.dropWhile isSpaceC
  let sgnAndRest : ℤ × List Char :=
    match t0 with
    | '+' :: r => (1, r)
    | '-' :: r => (-1, r)
    | r => (1, r)
  let ds := sgnAndRest.2.takeWhile Char.isDigit
  let r2 := sgnAndRest.2.dropWhile Char.isDigit
  if ds.isEmpty then none
  else if (r2.dropWhile isSpaceC).isEmpty then some (sgnAndRest.1 * (digitsToNat ds : ℤ))
  else none

/-- Python `round(x)` on a float: round half to even.  `f` is the floor of
`q` and `rnum / q.den` its fractional part; the three branches compare
that fraction with one half by cross-multiplication. -/
def roundHalfEven (q : ℚ) : ℤ :=
  let f : ℤ := q.num.fdiv (q.den : ℤ)
  let rnum : ℤ := q.num - f * (q.den : ℤ)
  if 2 * rnum < (q.den : ℤ) then f
  else if (q.den : ℤ) < 2 * rnum then f + 1
  else if f % 2 = 0 then f else f + 1

/-- The exact value of `((original - current) / original) * 100`
(app.py line 592), staged through `Rat.divInt` so the kernel can evaluate
it; `discountExpr_eq` shows it equals the source formula. -/
def discountExpr (c o : ℚ) : ℚ :=
  Rat.divInt ((o.num * (c.den : ℤ) - c.num * (o.den : ℤ)) * 100) (o.num * (c.den : ℤ))

/-- The staged discount expression agrees with the source formula. -/
theorem discountExpr_eq (c o : ℚ) (ho : o ≠ 0) :
    discountExpr c o = (o - c) / o * 100 := by
  have hcd : ((c.den : ℚ)) ≠ 0 := by
    exact_mod_cast c.den_nz
  have hod : ((o.den : ℚ)) ≠ 0 := by
    exact_mod_cast o.den_nz
  have hon : ((o.num : ℚ)) ≠ 0 := by
    exact_mod_cast Rat.num_ne_zero.mpr ho
  have hc2 : ((c.num : ℚ)) = c * ((c.den : ℚ)) :=
    (div_eq_iff hcd).mp (Rat.num_div_den c)
  have ho2 : ((o.num : ℚ)) = o * ((o.den : ℚ)) :=
    (div_eq_iff hod).mp (Rat.num_div_den o)
  have hd : (((o.num * (c.den : ℤ)) : ℤ) : ℚ) ≠ 0 := by
    push_cast
    exact mul_ne_zero hon hcd
  unfold discountExpr
  rw [Rat.divInt_eq_div, div_mul_eq_mul_div, div_eq_div_iff hd ho]
  push_cast
  rw [hc2, ho2]
  ring

/-! ### Raw upstream product objects (weakly typed dict values) -/

/-- A JSON scalar as it can appear in an `amount` field: a number, a
string, or some other shape (on which Python `float(...)` raises a
TypeError that the discount computation catches). -/
inductive JVal
  | jnum (q : ℚ)
  | jstr (s : String)
  | jother
deriving DecidableEq

/-- Python `float(v)` on an amount value; `none` models the
ValueError/TypeError that the caller catches. -/
def pyFloat : JVal → Option ℚ
  | .jnum q => some q
  | .jstr s => parseFloatStr s
  | .jother => none

structure ImageBlock where
  src : Option String := none
deriving DecidableEq

structure CurrentBlock where
  amount : Option JVal := none
  currency : Option String := none
deriving DecidableEq

structure OriginalBlock where
  amount : Option JVal := none
deriving DecidableEq

structure UnitCurBlock where
  amount : Option JVal := none
deriving DecidableEq

structure UnitBlock where
  current : Option UnitCurBlock := none
  label : Option String := none
deriving DecidableEq

structure PriceBlock where
  current : Option CurrentBlock := none
  original : Option OriginalBlock := none
  unit : Option UnitBlock := none
deriving DecidableEq

/-- A raw upstream product object (the dict handed from
`fetch_product_data` to `extract_product_info`).  `none` is a key that is
absent, is `None`, or fails the `isinstance` check guarding its use. -/
structure RawProduct where
  productId : Option String := none
  retailerProductId : Option String := none
  name : Option String := none
  brand : Option String := none
  available : Option Bool := none
  image : Option ImageBlock := none
  categoryPath : Option (List String) := none
  price : Option PriceBlock := none
  offers : Option (List String) := none
  offer : Option String := none
deriving DecidableEq

/-! ### Product Normalizer (app.py lines 553-609) -/

/-- The canonical record built by `extract_product_info` and by the
orchestrator placeholders.  A field of type `Option _` models a dict key
that some paths leave absent.  `currentPrice`/`originalPrice` are doubly
optional because the code distinguishes the key being present from its
value being `None` (app.py lines 585-586). -/
structure ProductInfo where
  found : Bool
  searchTerm : String
  productId : Option String := none
  retailerProductId : Option String := none
  name : Option String := none
  brand : Option String := none
  available : Bool := false
  imageUrl : Option String := none
  category : String := ""
  currency : Option String := none
  currentPrice : Option (Option JVal) := none
  originalPrice : Option (Option JVal) := none
  discountPercentage : Option ℤ := none
  unitPrice : Option JVal := none
  unitLabel : Option String := none
  offers : Option (List String) := none
  primaryOffer : Option String := none
  notFoundMessage : Option String := none
deriving DecidableEq

/-- The discount branch of `extract_product_info` (app.py lines 582-595).
Outer `none` models the uncaught ZeroDivisionError raised when
`original_price > current_price` with `original_price == 0` (the
`except` clause only catches ValueError and TypeError); inner `none`
means no `discountPercentage` key is set. -/
def computeDiscount (pr : PriceBlock) : Option (Option ℤ) :=
  match pr.original with
  | none => some none
  | some ob =>
    match pr.current with
    | none => some none
    | some cb =>
      match cb.amount, ob.amount with
      | some cvv, some ovv =>
        match pyFloat cvv, pyFloat ovv with
        | some c, some o =>
          if c < o then
            if o = 0 then none
            else some (some (roundHalfEven (discountExpr c o)))
          else some none
        | _, _ => some none
      | _, _ => some none

/-- `extract_product_info` (app.py lines 553-609).  Total except for the
ZeroDivisionError case surfaced by `computeDiscount`, mapped to `none`. -/
def extract_product_info (product : RawProduct) (search_term : String) : Option ProductInfo :=
  let base : ProductInfo := {
    found := true
    searchTerm := search_term
    productId := product.productId
    retailerProductId := product.retailerProductId
    name := product.name
    brand := product.brand
    available := product.available.getD false
    imageUrl := product.image.bind (fun im => im.src)
    category := match product.categoryPath with
      | some l => String.intercalate " > " l
      | none => ""
    currency := some "CAD"
    offers := product.offers.map (fun l => l.take 5)
    primaryOffer := product.offer
  }
  match product.price with
  | none => some base
  | some pr =>
    match computeDiscount pr with
    | none => none
    | some disc =>
      some { base with
        currentPrice := pr.current.map (fun cb => cb.amount)
        currency := some (match pr.current with
          | some cb => cb.currency.getD "CAD"
          | none => "CAD")
        originalPrice := pr.original.map (fun ob => ob.amount)
        discountPercentage := disc
        unitPrice := pr.unit.bind (fun ub => ub.current.bind (fun uc => uc.amount))
        unitLabel := pr.unit.bind (fun ub => ub.label) }

/-- The discount field of the normalized record: outer `none` is the
ZeroDivisionError, `some none` a record without the field, `some (some d)`
a record carrying `discountPercentage = d`. -/
def getDiscount (p : RawProduct) (t : String) : Option (Option ℤ) :=
  (extract_product_info p t).map (fun i => i.discountPercentage)

/-- The pair of parsed prices the discount computation compares, when the
price block carries both and both parse (mirrors app.py lines 578-590). -/
def discountInputs (p : RawProduct) : Option (ℚ × ℚ) :=
  match p.price with
  | none => none
  | some pr =>
    match pr.original with
    | none => none
    | some ob =>
      match pr.current with
      | none => none
      | some cb =>
        match cb.amount, ob.amount with
        | some cvv, some ovv =>
          match pyFloat cvv, pyFloat ovv with
          | some c, some o => some (c, o)
          | _, _ => none
        | _, _ => none

theorem discountInputs_spec (p : RawProduct) (c o : ℚ)
    (h : discountInputs p = some (c, o)) :
    ∃ pr cb ob cvv ovv, p.price = some pr ∧ pr.original = some ob ∧ pr.current = some cb ∧
      cb.amount = some cvv ∧ ob.amount = some ovv ∧
      pyFloat cvv = some c ∧ pyFloat ovv = some o := by
  unfold discountInputs at h
  cases hp : p.price with
  | none => simp [hp] at h
  | some pr =>
    simp only [hp] at h
    cases ho : pr.original with
    | none => simp [ho] at h
    | some ob =>
      simp only [ho] at h
      cases hc : pr.current with
      | none => simp [hc] at h
      | some cb =>
        simp only [hc] at h
        cases hca : cb.amount with
        | none => simp [hca] at h
        | some cvv =>
          simp only [hca] at h
          cases hoa : ob.amount with
          | none => simp [hoa] at h
          | some ovv =>
            simp only [hoa] at h
            cases hfc : pyFloat cvv with
            | none => simp [hfc] at h
            | some cq =>
              simp only [hfc] at h
              cases hfo : pyFloat ovv with
              | none => simp [hfo] at h
              | some oq =>
                simp only [hfo, Option.some.injEq, Prod.mk.injEq] at h
                exact ⟨pr, cb, ob, cvv, ovv, rfl, ho, hc, hca, hoa,
                  h.1 ▸ hfc, h.2 ▸ hfo⟩

/-- When the discount inputs are not both available and parsed, the
discount branch sets no field and raises nothing. -/
theorem computeDiscount_of_no_inputs (p : RawProduct) (pr : PriceBlock)
    (hp : p.price = some pr) (h : discountInputs p = none) :
    computeDiscount pr = some none := by
  unfold discountInputs at h
  simp only [hp] at h
  unfold computeDiscount
  cases ho : pr.original with
  | none => rfl
  | some ob =>
    simp only [ho] at h ⊢
    cases hc : pr.current with
    | none => rfl
    | some cb =>
      simp only [hc] at h ⊢
      cases hca : cb.amount with
      | none => simp only [hca] at h ⊢
      | some cvv =>
        simp only [hca] at h ⊢
        cases hoa : ob.amount with
        | none => simp only [hoa] at h ⊢
        | some ovv =>
          simp only [hoa] at h ⊢
          cases hfc : pyFloat cvv with
          | none => simp only [hfc] at h ⊢
          | some cq =>
            simp only [hfc] at h ⊢
            cases hfo : pyFloat ovv with
            | none => simp only [hfo] at h ⊢
            | some oq => simp [hfo] at h

/-- The discount field of the normalized record is exactly the outcome of
the discount branch on the price block (or trivially absent when there is
no price block). -/
theorem getDiscount_eq (p : RawProduct) (t : String) :
    getDiscount p t = (match p.price with
      | none => some none
      | some pr => computeDiscount pr) := by
  unfold getDiscount extract_product_info
  cases hp : p.price with
  | none => simp
  | some pr =>
    simp only []
    cases hcd : computeDiscount pr with
    | none => simp [hcd]
    | some disc => simp [hcd]

/-- The discount branch on a price block carrying both parsed amounts. -/
theorem computeDiscount_of_inputs (pr : PriceBlock) (cb : CurrentBlock)
    (ob : OriginalBlock) (cv ov : JVal) (c o : ℚ)
    (hc : pr.current = some cb) (ho : pr.original = some ob)
    (hca : cb.amount = some cv) (hoa : ob.amount = some ov)
    (hfc : pyFloat cv = some c) (hfo : pyFloat ov = some o) :
    computeDiscount pr =
      (if c < o then
        (if o = 0 then none else some (some (roundHalfEven (discountExpr c o))))
       else some none) := by
  unfold computeDiscount
  simp only [ho, hc, hca, hoa, hfc, hfo]

/-- Claim C2: for a price block whose current amount parses to 8.00 and
original amount to 10.00, normalization sets `discountPercentage = 20`;
whenever the parsed current amount is greater than or equal to the parsed
original amount, or either amount fails to parse as a number, or either
amount (or the whole block) is missing, no discount field is set and no
exception is raised (the record is still produced):
app.py lines 582-595. -/
theorem C2_discount_computation (p : RawProduct) (term : String) :
    (∀ pr cb ob cv ov, p.price = some pr → pr.current = some cb → pr.original = some ob →
        cb.amount = some cv → ob.amount = some ov →
        pyFloat cv = some 8 → pyFloat ov = some 10 →
        getDiscount p term = some (some 20))
    ∧ (∀ pr cb ob cv ov c o, p.price = some pr → pr.current = some cb → pr.original = some ob →
        cb.amount = some cv → ob.amount = some ov →
        pyFloat cv = some c → pyFloat ov = some o → o ≤ c →
        getDiscount p term = some none)
    ∧ (∀ pr cb ob cv ov, p.price = some pr → pr.current = some cb → pr.original = some ob →
        cb.amount = some cv → ob.amount = some ov →
        (pyFloat cv = none ∨ pyFloat ov = none) →
        getDiscount p term = some none)
    ∧ (∀ pr, p.price = some pr →
        (pr.current = none ∨ pr.original = none ∨
          (∃ cb, pr.current = some cb ∧ cb.amount = none) ∨
          (∃ ob, pr.original = some ob ∧ ob.amount = none)) →
        getDiscount p term = some none)
    ∧ (p.price = none → getDiscount p term = some none) := by
  refine ⟨?_, ?_, ?_, ?_, ?_⟩
  · intro pr cb ob cv ov hp hc ho hca hoa hfc hfo
    rw [getDiscount_eq]
    simp only [hp]
    rw [computeDiscount_of_inputs pr cb ob cv ov 8 10 hc ho hca hoa hfc hfo]
    rw [if_pos (by decide : (8 : ℚ) < 10), if_neg (by decide : ¬ (10 : ℚ) = 0)]
    rw [show roundHalfEven (discountExpr 8 10) = 20 from by decide]
  · intro pr cb ob cv ov c o hp hc ho hca hoa hfc hfo hle
    rw [getDiscount_eq]
    simp only [hp]
    rw [computeDiscount_of_inputs pr cb ob cv ov c o hc ho hca hoa hfc hfo]
    rw [if_neg (not_lt.mpr hle)]
  · intro pr cb ob cv ov hp hc ho hca hoa hfail
    rw [getDiscount_eq]
    simp only [hp]
    unfold computeDiscount
    simp only [ho, hc, hca, hoa]
    rcases hfail with hf | hf
    · simp only [hf]
    · simp only [hf]
      try (cases pyFloat cv <;> rfl)
  · intro pr hp hcase
    rw [getDiscount_eq]
    simp only [hp]
    unfold computeDiscount
    rcases hcase with hc | ho | ⟨cb, hc, hca⟩ | ⟨ob, ho, hoa⟩
    · cases ho : pr.original with
      | none => rfl
      | some ob => simp only [ho, hc]
    · simp only [ho]
    · cases ho : pr.original with
      | none => rfl
      | some ob => simp only [ho, hc, hca]
    · simp only [ho, hoa]
      cases hc : pr.current with
      | none => rfl
      | some cb =>
        simp only [hc]
        cases cb.amount <;> rfl
  · intro hp
    rw [getDiscount_eq]
    simp only [hp]

def discountSampleProduct : RawProduct :=
  { price := some { current := some { amount := some (JVal.jstr "8.00") },
                    original := some { amount := some (JVal.jstr "10.00") } } }

theorem C2_witness :
    getDiscount discountSampleProduct "sample" = some (some 20) :=
  (C2_discount_computation discountSampleProduct "sample").1 _ _ _ _ _
    rfl rfl rfl rfl rfl (by decide) (by decide)

def discountZeroPriceProduct : RawProduct :=
  { price := some { current := some { amount := some (JVal.jstr "0") },
                    original := some { amount := some (JVal.jstr "10") } } }

/-- Claim C3 counterexample: a product whose current price parses to 0
(not a positive number) and original price to 10 still gets a
`discountPercentage` field (value 100): the code only checks
`original_price > current_price` (app.py line 591), not positivity. -/
theorem C3_counterexample :
    pyFloat (JVal.jstr "0") = some 0 ∧
    getDiscount discountZeroPriceProduct "t" = some (some 100) :=
  ⟨by decide, by decide⟩

/-- Claim C3 as amended: the normalized record carries a
`discountPercentage` field exactly when both amounts are present and parse
as numbers (of any sign, zero included) with original strictly greater
than current; when additionally the original parses to 0, the computation
raises ZeroDivisionError instead of producing a record.  In every other
case the field is absent. -/
theorem C3_discount_presence (p : RawProduct) (t : String) :
    (∀ c o, discountInputs p = some (c, o) → c < o → o ≠ 0 →
        getDiscount p t = some (some (roundHalfEven (discountExpr c o))))
    ∧ (∀ c o, discountInputs p = some (c, o) → c < o → o = 0 →
        getDiscount p t = none)
    ∧ (∀ c o, discountInputs p = some (c, o) → ¬ c < o →
        getDiscount p t = some none)
    ∧ (discountInputs p = none → getDiscount p t = some none) := by
  refine ⟨?_, ?_, ?_, ?_⟩
  · intro c o h hlt hne
    obtain ⟨pr, cb, ob, cvv, ovv, hp, ho, hc, hca, hoa, hfc, hfo⟩ :=
      discountInputs_spec p c o h
    rw [getDiscount_eq]
    simp only [hp]
    rw [computeDiscount_of_inputs pr cb ob cvv ovv c o hc ho hca hoa hfc hfo]
    rw [if_pos hlt, if_neg hne]
  · intro c o h hlt hz
    obtain ⟨pr, cb, ob, cvv, ovv, hp, ho, hc, hca, hoa, hfc, hfo⟩ :=
      discountInputs_spec p c o h
    rw [getDiscount_eq]
    simp only [hp]
    rw [computeDiscount_of_inputs pr cb ob cvv ovv c o hc ho hca hoa hfc hfo]
    rw [if_pos hlt, if_pos hz]
  · intro c o h hge
    obtain ⟨pr, cb, ob, cvv, ovv, hp, ho, hc, hca, hoa, hfc, hfo⟩ :=
      discountInputs_spec p c o h
    rw [getDiscount_eq]
    simp only [hp]
    rw [computeDiscount_of_inputs pr cb ob cvv ovv c o hc ho hca hoa hfc hfo]
    rw [if_neg hge]
  · intro h
    cases hp : p.price with
    | none =>
      rw [getDiscount_eq]
      simp only [hp]
    | some pr =>
      rw [getDiscount_eq]
      simp only [hp]
      exact computeDiscount_of_no_inputs p pr hp h

def discountWitnessProduct : RawProduct :=
  { price := some { current := some { amount := some (JVal.jstr "4.00") },
                    original := some { amount := some (JVal.jstr "5.00") } } }

theorem C3_witness :
    getDiscount discountWitnessProduct "t" =
      some (some (roundHalfEven (discountExpr 4 5))) :=
  (C3_discount_presence discountWitnessProduct "t").1 4 5
    (by decide) (by decide) (by decide)

/-! ### Resilient Product Fetcher: regex and scanning machinery
(app.py lines 402-551) -/

def quoteKey (k : List Char) : List Char :=
  '"' :: (k ++ ['"'])

def pidKey : List Char := "productId".data

def rpidKey : List Char := "retailerProductId".data

/-- Consume the literal `pat` from the head of `s`. -/
def dropPrefixLit : List Char → List Char → Option (List Char)
  | [], s => some s
  | _ :: _, [] => none
  | p :: ps, c :: cs => if c == p then dropPrefixLit ps cs else none

/-- Consume `[^"]*` up to a closing quote; fails without one. -/
def captureUntilQuote : List Char → Option (List Char × List Char)
  | [] => none
  | '"' :: rest => some ([], rest)
  | c :: cs => (captureUntilQuote cs).map (fun p => (c :: p.1, p.2))

/-- The capture group `([^"]+)` followed by the closing quote. -/
def capturePlain (s : List Char) : Option (List Char × List Char) :=
  match captureUntilQuote s with
  | some (cap, rest) => if cap.isEmpty then none else some (cap, rest)
  | none => none

/-- Match of `"key"\s*:\s*"([^"]+)"` at the head of the input; returns
the capture and the rest after the match. -/
def matchKV (key : List Char) (s : List Char) : Option (List Char × List Char) :=
  match dropPrefixLit (quoteKey key) s with
  | none => none
  | some r1 =>
    match r1.dropWhile isSpaceC with
    | ':' :: r3 =>
      match r3.dropWhile isSpaceC with
      | '"' :: r5 => capturePlain r5
      | _ => none
    | _ => none

/-- `re.finditer` over `"key"\s*:\s*"([^"]+)"`: all captures of the
non-overlapping matches, left to right (app.py lines 440-447).  Each match
consumes at least one character, so fuel `s.length` suffices. -/
def findAllKVGo (key : List Char) : ℕ → List Char → List String
  | 0, _ => []
  | _ + 1, [] => []
  | fuel + 1, c :: cs =>
    match matchKV key (c :: cs) with
    | some (cap, rest) => String.mk cap :: findAllKVGo key fuel rest
    | none => findAllKVGo key fuel cs

def findAllKV (key s : List Char) : List String :=
  findAllKVGo key s.length s

/-- The capture group `([^"\\]*(?:\\.[^"\\]*)*)` followed by the closing
quote: plain characters, with two-character escape pairs whose second
character may not be a newline (`.` does not match newline). -/
def captureEsc : List Char → Option (List Char × List Char)
  | [] => none
  | '"' :: rest => some ([], rest)
  | '\\' :: c :: cs =>
    if c = '\n' then none
    else (captureEsc cs).map (fun p => ('\\' :: c :: p.1, p.2))
  | ['\\'] => none
  | c :: cs => (captureEsc cs).map (fun p => (c :: p.1, p.2))

/-- Match of `"key"\s*:\s*"(escaped capture)"` at the head of the input. -/
def matchKVEsc (key : List Char) (s : List Char) : Option (List Char × List Char) :=
  match dropPrefixLit (quoteKey key) s with
  | none => none
  | some r1 =>
    match r1.dropWhile isSpaceC with
    | ':' :: r3 =>
      match r3.dropWhile isSpaceC with
      | '"' :: r5 => captureEsc r5
      | _ => none
    | _ => none

/-- `re.search`: the first position where the head matcher succeeds. -/
def searchFirst {α : Type} (m : List Char → Option α) : List Char → Option α
  | [] => none
  | c :: cs =>
    match m (c :: cs) with
    | some x => some x
    | none => searchFirst m cs

/-- Match of `"available"\s*:\s*(true|false)` at the head of the input
(app.py line 536). -/
def matchAvail (s : List Char) : Option Bool :=
  match dropPrefixLit (quoteKey "available".data) s with
  | none => none
  | some r1 =>
    match r1.dropWhile isSpaceC with
    | ':' :: r3 =>
      let r4 := r3.dropWhile isSpaceC
      match dropPrefixLit "true".data r4 with
      | some _ => some true
      | none =>
        match dropPrefixLit "false".data r4 with
        | some _ => some false
        | none => none
    | _ => none

/-- Match of `"current"\s*:\s*{\s*"amount"\s*:\s*"([^"]+)"` at the head
of the input (app.py line 540). -/
def matchPriceCur (s : List Char) : Option (List Char) :=
  match dropPrefixLit (quoteKey "current".data) s with
  | none => none
  | some r1 =>
    match r1.dropWhile isSpaceC with
    | ':' :: r3 =>
      match r3.dropWhile isSpaceC with
      | '\x7b' :: r4 =>
        match dropPrefixLit (quoteKey "amount".data) (r4.dropWhile isSpaceC) with
        | none => none
        | some r5 =>
          match r5.dropWhile isSpaceC with
          | ':' :: r6 =>
            match r6.dropWhile isSpaceC with
            | '"' :: r7 => (capturePlain r7).map (fun p => p.1)
            | _ => none
          | _ => none
      | _ => none
    | _ => none

/-- Match of the id-anchored pattern `"key"\s*:\s*"<id>"` at the head of
the input (app.py line 450, with the id taken literally). -/
def matchIdPatAt (key idc : List Char) (s : List Char) : Bool :=
  match dropPrefixLit (quoteKey key) s with
  | none => false
  | some r1 =>
    match r1.dropWhile isSpaceC with
    | ':' :: r3 => (dropPrefixLit (quoteKey idc) (r3.dropWhile isSpaceC)).isSome
    | _ => false

/-- `re.search` returning the index of the first matching position. -/
def searchIdxGo (p : List Char → Bool) : ℕ → List Char → Option ℕ
  | _, [] => none
  | i, c :: cs => if p (c :: cs) then some i else searchIdxGo p (i + 1) cs

def searchIdx (p : List Char → Bool) (s : List Char) : Option ℕ :=
  searchIdxGo p 0 s

/-- `text.rfind("{", 0, start)`: the index of the last opening brace in the
given prefix (app.py line 454). -/
def rfindBraceGo : ℕ → Option ℕ → List Char → Option ℕ
  | _, best, [] => best
  | i, best, c :: cs => rfindBraceGo (i + 1) (if c = '\x7b' then some i else best) cs

def rfindBrace (s : List Char) : Option ℕ :=
  rfindBraceGo 0 none s

/-- The brace-depth walk of app.py lines 456-464, starting just after the
opening brace with depth `k ≥ 1`; returns how many characters it consumed
through the matching closing brace, or `none` if the text ends first. -/
def braceWalk : List Char → ℕ → Option ℕ
  | [], _ => none
  | c :: cs, k =>
    let k2 := if c = '\x7b' then k + 1 else if c = '\x7d' then k - 1 else k
    if k2 = 0 then some 1 else (braceWalk cs k2).map (fun n => n + 1)

/-- Python `str.replace('\\"', '"')`: left-to-right, non-overlapping. -/
def replaceEscQuote : List Char → List Char
  | '\\' :: '"' :: rest => '"' :: replaceEscQuote rest
  | c :: rest => c :: replaceEscQuote rest
  | [] => []

/-- Python `str.replace('\\\\', '\\')`: left-to-right, non-overlapping. -/
def replaceEscBack : List Char → List Char
  | '\\' :: '\\' :: rest => '\\' :: replaceEscBack rest
  | c :: rest => c :: replaceEscBack rest
  | [] => []

def isRetailerPrefixed (s : String) : Bool :=
  s.take 9 == "retailer_"

def cleanPid (pid : String) : String :=
  if isRetailerPrefixed pid then pid.drop 9 else pid

/-- `extract_product_fields` (app.py lines 504-551): field-level regex
recovery when the structured parse of a product substring fails.  The
`try`/`except` wrapper returning `None` guards against unexpected
exceptions only; none can occur in the model, so the result is always
`some`.  Note `available` defaults to `True` when the regex finds no
`available` field. -/
def extract_product_fields (product_json : List Char) (product_id : String) :
    Option RawProduct :=
  let clean_id := if isRetailerPrefixed product_id then product_id.drop 9 else product_id
  some {
    productId := some clean_id
    retailerProductId :=
      (searchFirst (matchKVEsc rpidKey) product_json).map
        (fun p => String.mk (replaceEscQuote p.1))
    name :=
      (searchFirst (matchKVEsc "name".data) product_json).map
        (fun p => String.mk (replaceEscBack (replaceEscQuote p.1)))
    brand :=
      (searchFirst (matchKVEsc "brand".data) product_json).map
        (fun p => String.mk (replaceEscBack (replaceEscQuote p.1)))
    available := some ((searchFirst matchAvail product_json).getD true)
    image :=
      (searchFirst (matchKVEsc "src".data) product_json).map
        (fun p => { src := some (String.mk (replaceEscBack (replaceEscQuote p.1))) })
    categoryPath := some []
    price := some {
      current := some {
        amount := (searchFirst matchPriceCur product_json).map
          (fun c => JVal.jstr (String.mk c))
        currency := some "CAD" }
      original := none
      unit := none }
    offers := none
    offer := none }

/-! ### `fetch_product_data` body processing (app.py lines 421-502) -/

/-- Python dict assignment `d[k] = v`: overwrite in place or append. -/
def dictInsert (l : List (String × RawProduct)) (k : String) (v : RawProduct) :
    List (String × RawProduct) :=
  if l.any (fun e => e.1 == k) then l.map (fun e => if e.1 == k then (k, v) else e)
  else l ++ [(k, v)]

/-- Python dict lookup. -/
def dictFind (l : List (String × RawProduct)) (k : String) : Option RawProduct :=
  (l.find? (fun e => e.1 == k)).map (fun e => e.2)

/-- The identifiers discovered in the body: every `productId` capture, or,
if there is none, every `retailerProductId` capture tagged with the
`retailer_` prefix (app.py lines 439-447). -/
def discoveredIds (body : List Char) : List String :=
  let pids := findAllKV pidKey body
  if pids.isEmpty then (findAllKV rpidKey body).map (fun s => "retailer_" ++ s)
  else pids

/-- One iteration of the extraction loop (app.py lines 449-479): locate the
first occurrence of the id, isolate its enclosing object by brace
matching, try the structured parse `jparse`, and fall back to field-level
regex extraction. -/
def scanStep (jparse : List Char → Option RawProduct) (body : List Char)
    (acc : List (String × RawProduct)) (prod_id : String) :
    List (String × RawProduct) :=
  let pref := isRetailerPrefixed prod_id
  let key := if pref then rpidKey else pidKey
  let idc := (if pref then prod_id.drop 9 else prod_id).data
  match searchIdx (fun s => matchIdPatAt key idc s) body with
  | none => acc
  | some start =>
    match rfindBrace (body.take start) with
    | none => acc
    | some os =>
      match braceWalk (body.drop (os + 1)) 1 with
      | none => acc
      | some w =>
        let product_json := (body.drop os).take (w + 1)
        match jparse product_json with
        | some pd =>
          let actual_id := if pref then pd.productId.getD prod_id else prod_id
          dictInsert acc actual_id pd
        | none =>
          match extract_product_fields product_json prod_id with
          | some fp => dictInsert acc prod_id fp
          | none => acc

def scanProducts (jparse : List Char → Option RawProduct) (body : List Char)
    (pids : List String) : List (String × RawProduct) :=
  pids.foldl (scanStep jparse body) []

/-- The minimal placeholder object of app.py lines 485-490; note
`retailerProductId` is set to the search term (the `product_id` parameter
of `fetch_product_data`), a quirk of the source. -/
def placeholderProduct (clean_id term : String) : RawProduct :=
  { productId := some clean_id
    retailerProductId := some term
    name := some ("Product " ++ clean_id)
    available := some true }

/-- The placeholder synthesis loop of app.py lines 481-490. -/
def placeholderMap (pids : List String) (term : String) :
    List (String × RawProduct) :=
  pids.foldl
    (fun acc pid => dictInsert acc (cleanPid pid) (placeholderProduct (cleanPid pid) term))
    []

/-- The whole body-processing stage of `fetch_product_data` for a 200
response whose body contains an identifier marker. -/
def fetch_body (jparse : List Char → Option RawProduct) (term : String)
    (body : List Char) : List (String × RawProduct) :=
  if (scanProducts jparse body (discoveredIds body)).isEmpty
      && !(discoveredIds body).isEmpty
  then placeholderMap (discoveredIds body) term
  else scanProducts jparse body (discoveredIds body)

/-- `'"productId"' in text or '"retailerProductId"' in text`
(app.py line 429). -/
def hasMarkers (body : List Char) : Bool :=
  hasSub (quoteKey pidKey) body || hasSub (quoteKey rpidKey) body

/-- The outcome of the one HTTP request of `fetch_product_data`: a
response with status and raw body, a `requests` timeout, a RecursionError
raised while processing, or any other exception. -/
inductive FetchOutcome
  | timeout
  | recursionOverflow
  | otherFailure
  | response (status : ℕ) (body : List Char)

/-- `fetch_product_data` (app.py lines 402-502) over an abstract request
outcome and an abstract `json.loads` for product substrings.  `none` is
Python `None` (hard failure); `some []` is the explicit empty
`{"entities": {"product": {}}}` sentinel. -/
def fetch_product_data (jparse : List Char → Option RawProduct) (term : String) :
    FetchOutcome → Option (List (String × RawProduct))
  | .timeout => none
  | .recursionOverflow => some []
  | .otherFailure => none
  | .response status body =>
    if status ≠ 200 then none
    else if !hasMarkers body then some []
    else some (fetch_body jparse term body)

/-! ### Claim C5: tagged fetch outcomes -/

/-- Claim C5: the fetcher returns a tagged result and never propagates an
exception (it is a total function of the outcome): non-200 status gives
the `none` hard failure, a 200 body without either identifier marker gives
the empty sentinel `some []` (distinguishable from `none`), a request
timeout gives `none`, a RecursionError overflow gives the empty sentinel,
and any other exception gives `none` (app.py lines 421-502). -/
theorem C5_fetch_tagged_outcomes (jparse : List Char → Option RawProduct)
    (term : String) (status : ℕ) (body : List Char) :
    (status ≠ 200 → fetch_product_data jparse term (.response status body) = none)
    ∧ (hasMarkers body = false →
        fetch_product_data jparse term (.response 200 body) = some [])
    ∧ fetch_product_data jparse term .timeout = none
    ∧ fetch_product_data jparse term .recursionOverflow = some []
    ∧ fetch_product_data jparse term .otherFailure = none
    ∧ (some ([] : List (String × RawProduct)) ≠ none) := by
  refine ⟨?_, ?_, rfl, rfl, rfl, by simp⟩
  · intro h
    simp only [fetch_product_data]
    rw [if_pos h]
  · intro h
    simp only [fetch_product_data]
    rw [if_neg (by simp : ¬ (200 : ℕ) ≠ 200)]
    simp [h]

def jparseNone : List Char → Option RawProduct := fun _ => none

theorem C5_witness :
    (404 ≠ 200)
    ∧ fetch_product_data jparseNone "w5" (.response 404 "x".data) = none
    ∧ hasMarkers "x".data = false
    ∧ fetch_product_data jparseNone "w5" (.response 200 "x".data) = some [] :=
  ⟨by decide,
   (C5_fetch_tagged_outcomes jparseNone "w5" 404 "x".data).1 (by decide),
   by decide,
   (C5_fetch_tagged_outcomes jparseNone "w5" 404 "x".data).2.1 (by decide)⟩

/-! ### Claim C10: the two defaults for `available` -/

/-- The normalizer copies `available` with default `False`
(app.py line 562), on every successful path. -/
theorem extract_available (p : RawProduct) (t : String) (info : ProductInfo)
    (h : extract_product_info p t = some info) :
    info.available = p.available.getD false := by
  unfold extract_product_info at h
  cases hp : p.price with
  | none =>
    simp only [hp, Option.some.injEq] at h
    rw [← h]
  | some pr =>
    simp only [hp] at h
    cases hcd : computeDiscount pr with
    | none => simp [hcd] at h
    | some disc =>
      simp only [hcd, Option.some.injEq] at h
      rw [← h]

/-- A successful normalization exposes `available` through the record. -/
theorem extract_map_available (p : RawProduct) (t : String)
    (h : extract_product_info p t ≠ none) :
    (extract_product_info p t).map (fun i => i.available) =
      some (p.available.getD false) := by
  cases hres : extract_product_info p t with
  | none => exact absurd hres h
  | some info => simp [extract_available p t info hres]

/-- Normalization cannot raise when the price block has no original
price: the ZeroDivisionError needs the discount comparison. -/
theorem extract_some_of_original_none (p : RawProduct) (t : String)
    (pr : PriceBlock) (hp : p.price = some pr) (ho : pr.original = none) :
    extract_product_info p t ≠ none := by
  unfold extract_product_info
  simp only [hp]
  unfold computeDiscount
  simp only [ho]
  simp

/-- Claim C10: when the field-level regex extractor finds no `available`
field, the fallback RawProductObject has `available = true` and the
canonical record built from it reports the product available; by contrast
a structurally parsed product with no `available` field normalizes to
`available = false` (app.py lines 513, 536-538, 562). -/
theorem C10_available_defaults (pj : List Char) (pid : String)
    (p : RawProduct) (t : String) :
    (searchFirst matchAvail pj = none →
      (extract_product_fields pj pid).map (fun r => r.available) = some (some true)
      ∧ ((extract_product_fields pj pid).bind
          (fun fp => extract_product_info fp t)).map (fun i => i.available) = some true)
    ∧ (p.available = none → ∀ info, extract_product_info p t = some info →
        info.available = false) := by
  constructor
  · intro h
    constructor
    · simp [extract_product_fields, h]
    · simp only [extract_product_fields, Option.some_bind]
      rw [extract_map_available _ t (extract_some_of_original_none _ t _ rfl rfl)]
      simp [h]
  · intro hav info h
    rw [extract_available p t info h, hav]
    rfl

def emptyRawProduct : RawProduct := {}

theorem C10_witness :
    ((extract_product_fields "x".data "A").map (fun r => r.available) = some (some true)
      ∧ ((extract_product_fields "x".data "A").bind
          (fun fp => extract_product_info fp "t")).map (fun i => i.available) = some true)
    ∧ ((extract_product_info emptyRawProduct "t").map (fun i => i.available)
        = some false) := by
  have h1 := (C10_available_defaults "x".data "A" emptyRawProduct "t").1 (by decide)
  have h2 := (C10_available_defaults "x".data "A" emptyRawProduct "t").2 rfl
  refine ⟨h1, ?_⟩
  cases hres : extract_product_info emptyRawProduct "t" with
  | none => exact absurd hres (by decide)
  | some info =>
    simp [h2 info hres]

/-! ### Claim C7: placeholder synthesis -/

/-- First-occurrence accumulation step used to characterize repeated
Python-dict insertion with a key-determined value. -/
def dfStep (acc : List String) (k : String) : List String :=
  if k ∈ acc then acc else acc ++ [k]

/-- First-occurrence deduplication of a key list. -/
def dedupFirst (l : List String) : List String :=
  l.foldl dfStep []

theorem dfStep_fold_nodup (l : List String) :
    ∀ acc : List String, acc.Nodup → (l.foldl dfStep acc).Nodup := by
  induction l with
  | nil => intro acc h; exact h
  | cons a l ih =>
    intro acc h
    simp only [List.foldl_cons]
    apply ih
    unfold dfStep
    by_cases ha : a ∈ acc
    · rw [if_pos ha]; exact h
    · rw [if_neg ha]
      simp [List.nodup_append, h, ha]

theorem dfStep_fold_mem (l : List String) :
    ∀ (acc : List String) (x : String),
      x ∈ l.foldl dfStep acc ↔ x ∈ acc ∨ x ∈ l := by
  induction l with
  | nil => intro acc x; simp
  | cons a l ih =>
    intro acc x
    simp only [List.foldl_cons]
    rw [ih]
    unfold dfStep
    by_cases ha : a ∈ acc
    · rw [if_pos ha]
      simp only [List.mem_cons]
      constructor
      · tauto
      · rintro (h | rfl | h)
        · exact Or.inl h
        · exact Or.inl ha
        · exact Or.inr h
    · rw [if_neg ha]
      simp only [List.mem_append, List.mem_singleton, List.mem_cons]
      tauto

theorem dedupFirst_nodup (l : List String) : (dedupFirst l).Nodup :=
  dfStep_fold_nodup l [] List.nodup_nil

theorem dedupFirst_mem (l : List String) (x : String) :
    x ∈ dedupFirst l ↔ x ∈ l := by
  unfold dedupFirst
  rw [dfStep_fold_mem]
  simp

/-- The entry a placeholder key maps to. -/
def phMk (term k : String) : String × RawProduct :=
  (k, placeholderProduct k term)

theorem dictInsert_phMk (term : String) (ks : List String) (k : String) :
    dictInsert (ks.map (phMk term)) k (placeholderProduct k term) =
      (dfStep ks k).map (phMk term) := by
  unfold dictInsert dfStep
  by_cases hk : k ∈ ks
  · have hany : (ks.map (phMk term)).any (fun e => e.1 == k) = true := by
      rw [List.any_eq_true]
      exact ⟨phMk term k, List.mem_map_of_mem _ hk, by simp [phMk]⟩
    rw [if_pos hany, if_pos hk]
    rw [List.map_map]
    apply List.map_congr_left
    intro x _
    by_cases hxk : x = k
    · subst hxk; simp [phMk]
    · simp [phMk, hxk]
  · have hany : (ks.map (phMk term)).any (fun e => e.1 == k) = false := by
      rw [List.any_eq_false]
      intro e he
      rcases List.mem_map.mp he with ⟨x, hx, rfl⟩
      simp only [phMk, beq_iff_eq]
      intro hxk
      exact hk (hxk ▸ hx)
    rw [if_neg (by rw [hany]; exact Bool.false_ne_true), if_neg hk]
    simp [phMk]

theorem placeholderMap_eq (pids : List String) (term : String) :
    placeholderMap pids term = (dedupFirst (pids.map cleanPid)).map (phMk term) := by
  have key : ∀ (l ks : List String),
      l.foldl
        (fun acc pid => dictInsert acc (cleanPid pid) (placeholderProduct (cleanPid pid) term))
        (ks.map (phMk term))
      = (List.foldl dfStep ks (l.map cleanPid)).map (phMk term) := by
    intro l
    induction l with
    | nil => intro ks; simp
    | cons a l ih =>
      intro ks
      simp only [List.foldl_cons, List.map_cons]
      rw [dictInsert_phMk term ks (cleanPid a)]
      exact ih (dfStep ks (cleanPid a))
  have h0 := key pids []
  simpa [placeholderMap, dedupFirst] using h0

theorem dictFind_phMk (term : String) (ks : List String) (k : String) :
    dictFind (ks.map (phMk term)) k =
      if k ∈ ks then some (placeholderProduct k term) else none := by
  induction ks with
  | nil => simp [dictFind]
  | cons a ks ih =>
    by_cases hak : a = k
    · subst hak
      simp [dictFind, phMk, List.find?]
    · unfold dictFind at ih ⊢
      simp only [List.map_cons, List.find?]
      rw [show ((phMk term a).1 == k) = false from by simp [phMk, hak]]
      rw [ih]
      simp [List.mem_cons, hak, Ne.symm hak]

/-- Claim C7: whenever at least one identifier was discovered in the body
but the extraction loop produced no product, `fetch_body` returns the
placeholder map: every discovered identifier, stripped of its
`retailer_` tag, maps to exactly one minimal placeholder object with name
`"Product {id}"` and `available = true`; the map keys are exactly the
(first-occurrence deduplicated) stripped identifiers, with no duplicates,
and every entry arises from a discovered identifier
(app.py lines 481-490). -/
theorem C7_placeholder_synthesis (jparse : List Char → Option RawProduct)
    (term : String) (body : List Char)
    (hids : discoveredIds body ≠ [])
    (hscan : scanProducts jparse body (discoveredIds body) = []) :
    fetch_body jparse term body = placeholderMap (discoveredIds body) term
    ∧ (∀ pid ∈ discoveredIds body,
        dictFind (fetch_body jparse term body) (cleanPid pid) =
          some (placeholderProduct (cleanPid pid) term))
    ∧ ((fetch_body jparse term body).map Prod.fst).Nodup
    ∧ (∀ e ∈ fetch_body jparse term body, ∃ pid ∈ discoveredIds body,
        e = (cleanPid pid, placeholderProduct (cleanPid pid) term)) := by
  have h1 : (scanProducts jparse body (discoveredIds body)).isEmpty = true := by
    rw [hscan]; rfl
  have h2 : (discoveredIds body).isEmpty = false := by
    cases hd : discoveredIds body with
    | nil => exact absurd hd hids
    | cons a l => rfl
  have heq : fetch_body jparse term body = placeholderMap (discoveredIds body) term := by
    unfold fetch_body
    rw [h1, h2]
    rfl
  refine ⟨heq, ?_, ?_, ?_⟩
  · intro pid hpid
    rw [heq, placeholderMap_eq, dictFind_phMk]
    rw [if_pos ((dedupFirst_mem _ _).mpr (List.mem_map_of_mem _ hpid))]
  · rw [heq, placeholderMap_eq, List.map_map]
    have hmapid : ((dedupFirst ((discoveredIds body).map cleanPid)).map
        (Prod.fst ∘ phMk term)) = dedupFirst ((discoveredIds body).map cleanPid) := by
      rw [show (Prod.fst ∘ phMk term) = id from by funext k; rfl]
      exact List.map_id _
    rw [hmapid]
    exact dedupFirst_nodup _
  · intro e he
    rw [heq, placeholderMap_eq] at he
    rcases List.mem_map.mp he with ⟨k, hk, rfl⟩
    rcases List.mem_map.mp ((dedupFirst_mem _ _).mp hk) with ⟨pid, hpid, rfl⟩
    exact ⟨pid, hpid, rfl⟩

def c7Body : List Char := "\"productId\": \"A\"".data

theorem C7_witness :
    discoveredIds c7Body ≠ []
    ∧ scanProducts jparseNone c7Body (discoveredIds c7Body) = []
    ∧ dictFind (fetch_body jparseNone "w7" c7Body) (cleanPid "A") =
        some (placeholderProduct (cleanPid "A") "w7") := by
  refine ⟨by decide, by decide, ?_⟩
  exact (C7_placeholder_synthesis jparseNone "w7" c7Body (by decide) (by decide)).2.1
    "A" (by decide)

/-! ### Chunk Orchestrator: `process_term` (app.py lines 611-720) and
`process_chunk` (app.py lines 777-864) -/

/-- The `limit` request parameter as it can arrive from JSON: a string, an
integer, `null` (Python `None`, which slices as `[:None]`, that is, no
cap), or a float (whose slice raises the TypeError caught at
app.py line 643). -/
inductive LimitVal
  | lStr (s : String)
  | lInt (n : ℤ)
  | lNone
  | lFloat
deriving DecidableEq

/-- Python list slicing `l[:n]` for an arbitrary integer bound: negative
bounds count from the end. -/
def pySlice (l : List String) (n : ℤ) : List String :=
  if 0 ≤ n then l.take n.toNat else l.take (l.length - (-n).toNat)

/-- The key-truncation logic of app.py lines 639-646 for
`is_article_search = False`. -/
def limitKeys (limit : LimitVal) (keys : List String) : List String :=
  match limit with
  | .lStr s =>
    if s = "all" then keys.take 50
    else
      match pyIntParse s with
      | some n => pySlice keys n
      | none => keys.take 10
  | .lInt n => pySlice keys n
  | .lNone => keys
  | .lFloat => keys.take 10

/-- The not-found placeholder record (app.py lines 616-628 and 680-691). -/
def notFoundInfo (term : String) : ProductInfo :=
  { found := false
    searchTerm := term
    name := some ("Article Not Found: " ++ term)
    available := false
    category := ""
    notFoundMessage := some ("The article \"" ++ term ++
      "\" was not found. It may not be published yet or could be a typo.") }

/-- The error placeholder record of the catch-all handler
(app.py lines 707-720). -/
def errorInfo (term : String) : ProductInfo :=
  { found := false
    searchTerm := term
    name := some ("Article Not Found: " ++ term)
    available := false
    category := ""
    notFoundMessage := some "Error processing the article. Please try again." }

/-- A per-term result: one record (dict) or several (list). -/
inductive TermResult
  | single (p : ProductInfo)
  | multi (ps : List ProductInfo)
deriving DecidableEq

def recordsOf : TermResult → List ProductInfo
  | .single p => [p]
  | .multi ps => ps

/-- The non-article extraction loop of app.py lines 649-654; a lookup or
normalization failure aborts the whole term (the exception propagates to
the handler at line 707). -/
def allExtract (entities : List (String × RawProduct)) (term : String) :
    List String → Option (List ProductInfo)
  | [] => some []
  | k :: ks =>
    match dictFind entities k with
    | none => none
    | some p =>
      match extract_product_info p term with
      | none => none
      | some info =>
        match allExtract entities term ks with
        | some ps => some (info :: ps)
        | none => none

/-- The `product_keys` selection of app.py lines 636-646. -/
def productKeysOf (limit : LimitVal) (is_article_search : Bool)
    (entities : List (String × RawProduct)) : List String :=
  if is_article_search then (entities.map Prod.fst).take 1
  else limitKeys limit (entities.map Prod.fst)

/-- `process_term` (app.py lines 611-720) over the result of the fetch.
The `RecursionError` handlers (lines 665-678 and 693-706) are
unreachable in the model (no recursion limit); the only modelled
exception is the normalization ZeroDivisionError, which lands in the
generic handler at line 707. -/
def process_term (raw : Option (List (String × RawProduct))) (term : String)
    (limit : LimitVal) (is_article_search : Bool) : TermResult × ℕ :=
  match raw with
  | none => (.single (notFoundInfo term), 0)
  | some entities =>
    if entities.isEmpty then (.single (notFoundInfo term), 0)
    else
      if !is_article_search && !(productKeysOf limit is_article_search entities).isEmpty then
        match allExtract entities term (productKeysOf limit is_article_search entities) with
        | some ps => (.multi ps, entities.length)
        | none => (.single (errorInfo term), 0)
      else
        match productKeysOf limit is_article_search entities with
        | [] => (.single (notFoundInfo term), 0)
        | k :: _ =>
          match dictFind entities k with
          | none => (.single (errorInfo term), 0)
          | some p =>
            match extract_product_info p term with
            | some info => (.single info, entities.length)
            | none => (.single (errorInfo term), 0)

structure ChunkOutcome where
  batch : List ProductInfo
  processedCount : ℕ
  totalFound : ℕ
deriving DecidableEq

/-- One loop iteration of the chunk handler (app.py lines 801-827):
count the completed future, extend the batch with a list result or append
a single record. -/
def chunkStep (jparse : List Char → Option RawProduct) (env : String → FetchOutcome)
    (limit : LimitVal) (is_article_search : Bool)
    (acc : ChunkOutcome) (term : String) : ChunkOutcome :=
  { batch := acc.batch ++
      recordsOf (process_term (fetch_product_data jparse term (env term))
        term limit is_article_search).1
    processedCount := acc.processedCount + 1
    totalFound := acc.totalFound +
      (process_term (fetch_product_data jparse term (env term))
        term limit is_article_search).2 }

/-- The per-chunk processing of app.py lines 777-864: one
`process_term` per submitted term (the worker pool only reorders
completions, which no counting claim depends on), then one batch store
and one progress update.  `env` gives each term its upstream outcome. -/
def process_chunk (jparse : List Char → Option RawProduct)
    (env : String → FetchOutcome) (search_terms : List String)
    (limit : LimitVal) (is_article_search : Bool) : ChunkOutcome :=
  search_terms.foldl (chunkStep jparse env limit is_article_search) ⟨[], 0, 0⟩

/-- Records with `found = true` in a term result. -/
def foundCount (r : TermResult) : ℕ :=
  ((recordsOf r).filter (fun i => i.found)).length

/-! ### Counting lemmas for the orchestrator -/

/-- Every record a successful normalization produces has `found = true`
(app.py line 556). -/
theorem extract_found (p : RawProduct) (t : String) (info : ProductInfo)
    (h : extract_product_info p t = some info) : info.found = true := by
  unfold extract_product_info at h
  cases hp : p.price with
  | none =>
    simp only [hp, Option.some.injEq] at h
    rw [← h]
  | some pr =>
    simp only [hp] at h
    cases hcd : computeDiscount pr with
    | none => simp [hcd] at h
    | some disc =>
      simp only [hcd, Option.some.injEq] at h
      rw [← h]

theorem allExtract_length (entities : List (String × RawProduct)) (term : String) :
    ∀ ks ps, allExtract entities term ks = some ps → ps.length = ks.length := by
  intro ks
  induction ks with
  | nil =>
    intro ps h
    simp only [allExtract, Option.some.injEq] at h
    rw [← h]
    rfl
  | cons k ks ih =>
    intro ps h
    simp only [allExtract] at h
    cases hf : dictFind entities k with
    | none => simp [hf] at h
    | some p =>
      simp only [hf] at h
      cases he : extract_product_info p term with
      | none => simp [he] at h
      | some info =>
        simp only [he] at h
        cases ha : allExtract entities term ks with
        | none => simp [ha] at h
        | some ps2 =>
          simp only [ha, Option.some.injEq] at h
          rw [← h]
          simp [ih ps2 ha]

theorem allExtract_found (entities : List (String × RawProduct)) (term : String) :
    ∀ ks ps, allExtract entities term ks = some ps → ∀ i ∈ ps, i.found = true := by
  intro ks
  induction ks with
  | nil =>
    intro ps h i hi
    simp only [allExtract, Option.some.injEq] at h
    rw [← h] at hi
    simp at hi
  | cons k ks ih =>
    intro ps h i hi
    simp only [allExtract] at h
    cases hf : dictFind entities k with
    | none => simp [hf] at h
    | some p =>
      simp only [hf] at h
      cases he : extract_product_info p term with
      | none => simp [he] at h
      | some info =>
        simp only [he] at h
        cases ha : allExtract entities term ks with
        | none => simp [ha] at h
        | some ps2 =>
          simp only [ha, Option.some.injEq] at h
          rw [← h] at hi
          rcases List.mem_cons.mp hi with rfl | hi2
          · exact extract_found p term i he
          · exact ih ps2 ha i hi2

theorem foundCount_single_le (p : ProductInfo) : foundCount (.single p) ≤ 1 := by
  cases hp : p.found <;> simp [foundCount, recordsOf, hp]

theorem foundCount_multi_eq (ps : List ProductInfo)
    (h : ∀ i ∈ ps, i.found = true) : foundCount (.multi ps) = ps.length := by
  unfold foundCount recordsOf
  rw [List.filter_eq_self.mpr]
  intro a ha
  exact h a ha

/-- In article mode every term yields exactly one record. -/
theorem process_term_article_single (raw : Option (List (String × RawProduct)))
    (term : String) (limit : LimitVal) :
    ∃ p, (process_term raw term limit true).1 = .single p := by
  cases raw with
  | none => exact ⟨_, rfl⟩
  | some entities =>
    simp only [process_term]
    cases he : entities.isEmpty with
    | true => rw [if_pos rfl]; exact ⟨_, rfl⟩
    | false =>
      rw [if_neg (by simp), if_neg (by simp)]
      cases hpk : productKeysOf limit true entities with
      | nil => simp only [hpk]; exact ⟨_, rfl⟩
      | cons k ks =>
        simp only [hpk]
        cases hf : dictFind entities k with
        | none => simp only [hf]; exact ⟨_, rfl⟩
        | some p =>
          simp only [hf]
          cases hx : extract_product_info p term with
          | none => simp only [hx]; exact ⟨_, rfl⟩
          | some info => simp only [hx]; exact ⟨_, rfl⟩

/-- Every term contributes at least one record to the batch. -/
theorem process_term_batch_ge_one (raw : Option (List (String × RawProduct)))
    (term : String) (limit : LimitVal) (ia : Bool) :
    1 ≤ (recordsOf (process_term raw term limit ia).1).length := by
  cases ia with
  | true =>
    obtain ⟨p, hp⟩ := process_term_article_single raw term limit
    rw [hp]
    simp [recordsOf]
  | false =>
    cases raw with
    | none => simp [process_term, recordsOf]
    | some entities =>
      simp only [process_term]
      cases he : entities.isEmpty with
      | true => rw [if_pos rfl]; simp [recordsOf]
      | false =>
        rw [if_neg (by simp)]
        cases hpk : (productKeysOf limit false entities).isEmpty with
        | true =>
          rw [if_neg (by simp)]
          have hnil : productKeysOf limit false entities = [] := by
            cases hn : productKeysOf limit false entities with
            | nil => rfl
            | cons a l => rw [hn] at hpk; simp at hpk
          simp only [hnil]
          simp [recordsOf]
        | false =>
          rw [if_pos (show (!false && !false) = true from rfl)]
          cases ha : allExtract entities term (productKeysOf limit false entities) with
          | none => simp only [ha]; simp [recordsOf]
          | some ps =>
            simp only [ha]
            have hlen := allExtract_length entities term _ ps ha
            have hne : productKeysOf limit false entities ≠ [] := by
              intro hnil
              rw [hnil] at hpk
              simp at hpk
            have hpos : 0 < (productKeysOf limit false entities).length :=
              List.length_pos.mpr hne
            show 1 ≤ (recordsOf (TermResult.multi ps)).length
            simp only [recordsOf]
            omega

theorem chunk_fold_counts (jparse : List Char → Option RawProduct)
    (env : String → FetchOutcome) (limit : LimitVal) (ia : Bool)
    (terms : List String) :
    ∀ acc : ChunkOutcome,
      (terms.foldl (chunkStep jparse env limit ia) acc).processedCount
          = acc.processedCount + terms.length
      ∧ acc.batch.length + terms.length
          ≤ (terms.foldl (chunkStep jparse env limit ia) acc).batch.length
      ∧ (ia = true →
          (terms.foldl (chunkStep jparse env limit ia) acc).batch.length
            = acc.batch.length + terms.length) := by
  induction terms with
  | nil => intro acc; simp
  | cons t ts ih =>
    intro acc
    simp only [List.foldl_cons]
    obtain ⟨h1, h2, h3⟩ := ih (chunkStep jparse env limit ia acc t)
    have hb : (chunkStep jparse env limit ia acc t).batch.length
        = acc.batch.length +
          (recordsOf (process_term (fetch_product_data jparse t (env t))
            t limit ia).1).length := by
      simp [chunkStep]
    have hp : (chunkStep jparse env limit ia acc t).processedCount
        = acc.processedCount + 1 := by
      simp [chunkStep]
    have hge := process_term_batch_ge_one (fetch_product_data jparse t (env t)) t limit ia
    refine ⟨?_, ?_, ?_⟩
    · rw [h1, hp]
      simp [Nat.add_assoc, Nat.add_comm 1 ts.length]
    · rw [hb] at h2
      simp only [List.length_cons]
      omega
    · intro hia
      subst hia
      obtain ⟨p, hone⟩ := process_term_article_single
        (fetch_product_data jparse t (env t)) t limit
      have hr : (recordsOf (process_term (fetch_product_data jparse t (env t))
          t limit true).1).length = 1 := by
        rw [hone]
        simp [recordsOf]
      rw [h3 rfl, hb, hr]
      simp only [List.length_cons]
      omega

def jparseStub : List Char → Option RawProduct := fun _ => some {}

def bodyTwo : List Char :=
  "\x7b\"productId\":\"A\"\x7d,\x7b\"productId\":\"B\"\x7d".data

def envTwo : String → FetchOutcome := fun _ => .response 200 bodyTwo

/-- Claim C1 counterexample: a non-article chunk of a single term whose
upstream response carries two products persists two records, not one —
`chunk_products.extend(product_result)` at app.py line 810 adds one record
per product, not per term. -/
theorem C1_counterexample :
    (process_chunk jparseStub envTwo ["T"] (.lStr "all") false).batch.length = 2
    ∧ (process_chunk jparseStub envTwo ["T"] (.lStr "all") false).processedCount = 1
    ∧ (2 : ℕ) ≠ 1 :=
  ⟨by decide, by decide, by decide⟩

/-- Claim C1 as amended: for a chunk of N terms, `processedCount = N` in
every mode; the persisted batch always contains at least N records (one
per term: a found record, a not-found placeholder, or an error
placeholder); and in article mode it contains exactly N records.  In
non-article mode a term with several found products contributes one
record per product, so the batch can exceed N. -/
theorem C1_chunk_totality (jparse : List Char → Option RawProduct)
    (env : String → FetchOutcome) (terms : List String) (limit : LimitVal)
    (ia : Bool) :
    (process_chunk jparse env terms limit ia).processedCount = terms.length
    ∧ terms.length ≤ (process_chunk jparse env terms limit ia).batch.length
    ∧ (ia = true →
        (process_chunk jparse env terms limit ia).batch.length = terms.length) := by
  obtain ⟨h1, h2, h3⟩ := chunk_fold_counts jparse env limit ia terms ⟨[], 0, 0⟩
  unfold process_chunk
  refine ⟨by simpa using h1, by simpa using h2, fun hia => by simpa using h3 hia⟩

theorem C1_witness :
    (process_chunk jparseStub envTwo ["T", "U"] (.lStr "all") true).processedCount = 2
    ∧ 2 ≤ (process_chunk jparseStub envTwo ["T", "U"] (.lStr "all") true).batch.length
    ∧ (process_chunk jparseStub envTwo ["T", "U"] (.lStr "all") true).batch.length = 2 :=
  ⟨(C1_chunk_totality jparseStub envTwo ["T", "U"] (.lStr "all") true).1,
   (C1_chunk_totality jparseStub envTwo ["T", "U"] (.lStr "all") true).2.1,
   (C1_chunk_totality jparseStub envTwo ["T", "U"] (.lStr "all") true).2.2 rfl⟩

/-! ### Claim C6: per-term result shaping -/

theorem process_term_article_found_le (raw : Option (List (String × RawProduct)))
    (term : String) (limit : LimitVal) :
    foundCount (process_term raw term limit true).1 ≤ 1 := by
  obtain ⟨p, hp⟩ := process_term_article_single raw term limit
  rw [hp]
  exact foundCount_single_le p

/-- In non-article mode the found products are bounded by the truncated
key list. -/
theorem process_term_found_le_keys (entities : List (String × RawProduct))
    (term : String) (limit : LimitVal) :
    foundCount (process_term (some entities) term limit false).1
      ≤ (limitKeys limit (entities.map Prod.fst)).length := by
  simp only [process_term]
  cases he : entities.isEmpty with
  | true => rw [if_pos rfl]; simp [foundCount, recordsOf, notFoundInfo]
  | false =>
    rw [if_neg (by simp)]
    cases hpk : (productKeysOf limit false entities).isEmpty with
    | true =>
      rw [if_neg (by simp)]
      have hnil : productKeysOf limit false entities = [] := by
        cases hn : productKeysOf limit false entities with
        | nil => rfl
        | cons a l => rw [hn] at hpk; simp at hpk
      simp only [hnil]
      simp [foundCount, recordsOf, notFoundInfo]
    | false =>
      rw [if_pos (show (!false && !false) = true from rfl)]
      cases ha : allExtract entities term (productKeysOf limit false entities) with
      | none => simp only [ha]; simp [foundCount, recordsOf, errorInfo]
      | some ps =>
        simp only [ha]
        have hfound := allExtract_found entities term _ ps ha
        have hlen := allExtract_length entities term _ ps ha
        show foundCount (TermResult.multi ps) ≤ _
        rw [foundCount_multi_eq ps hfound, hlen]
        unfold productKeysOf
        simp

theorem limitKeys_length_all (keys : List String) :
    (limitKeys (.lStr "all") keys).length ≤ 50 := by
  simp only [limitKeys, if_true]
  rw [List.length_take]
  exact min_le_left _ _

theorem limitKeys_length_int (keys : List String) (n : ℤ) (hn : 0 ≤ n) :
    (limitKeys (.lInt n) keys).length ≤ n.toNat := by
  simp only [limitKeys, pySlice]
  rw [if_pos hn, List.length_take]
  exact min_le_left _ _

theorem limitKeys_length_strnum (keys : List String) (s : String) (n : ℤ)
    (hs : s ≠ "all") (hp : pyIntParse s = some n) (hn : 0 ≤ n) :
    (limitKeys (.lStr s) keys).length ≤ n.toNat := by
  simp only [limitKeys]
  rw [if_neg hs]
  simp only [hp, pySlice]
  rw [if_pos hn, List.length_take]
  exact min_le_left _ _

theorem limitKeys_length_strbad (keys : List String) (s : String)
    (hs : s ≠ "all") (hp : pyIntParse s = none) :
    (limitKeys (.lStr s) keys).length ≤ 10 := by
  simp only [limitKeys]
  rw [if_neg hs]
  simp only [hp]
  rw [List.length_take]
  exact min_le_left _ _

theorem limitKeys_length_float (keys : List String) :
    (limitKeys .lFloat keys).length ≤ 10 := by
  simp only [limitKeys]
  rw [List.length_take]
  exact min_le_left _ _

/-- A complete case analysis of the `process_term` result on a fetched
entity map: a product list always comes with `totalFound` equal to the
entity count; a single record comes with the entity count or, on a
degraded path, with 0. -/
theorem process_term_snd_spec (m : List (String × RawProduct)) (term : String)
    (limit : LimitVal) (ia : Bool) :
    (∃ ps, process_term (some m) term limit ia = (.multi ps, m.length))
    ∨ (∃ p, process_term (some m) term limit ia = (.single p, m.length))
    ∨ (∃ p, process_term (some m) term limit ia = (.single p, 0)) := by
  cases he : m.isEmpty with
  | true =>
    exact Or.inr (Or.inr ⟨notFoundInfo term, by simp [process_term, he]⟩)
  | false =>
    cases hg : (!ia && !(productKeysOf limit ia m).isEmpty) with
    | true =>
      cases ha : allExtract m term (productKeysOf limit ia m) with
      | some ps =>
        exact Or.inl ⟨ps, by simp [process_term, he, hg, ha]⟩
      | none =>
        exact Or.inr (Or.inr ⟨errorInfo term, by simp [process_term, he, hg, ha]⟩)
    | false =>
      cases hpk : productKeysOf limit ia m with
      | nil =>
        exact Or.inr (Or.inr ⟨notFoundInfo term, by simp [process_term, he, hg, hpk]⟩)
      | cons k ks =>
        have hia : ia = true := by
          rw [hpk] at hg
          cases ia with
          | true => rfl
          | false => simp at hg
        subst hia
        cases hf : dictFind m k with
        | none =>
          exact Or.inr (Or.inr ⟨errorInfo term,
            by simp [process_term, he, hpk, hf]⟩)
        | some p =>
          cases hx : extract_product_info p term with
          | some info =>
            exact Or.inr (Or.inl ⟨info,
              by simp [process_term, he, hpk, hf, hx]⟩)
          | none =>
            exact Or.inr (Or.inr ⟨errorInfo term,
              by simp [process_term, he, hpk, hf, hx]⟩)

/-- `totalFound` is the full entity count on success paths and 0 on every
degraded path. -/
theorem process_term_totalFound_cases (m : List (String × RawProduct))
    (term : String) (limit : LimitVal) (ia : Bool) :
    (process_term (some m) term limit ia).2 = m.length
    ∨ (process_term (some m) term limit ia).2 = 0 := by
  rcases process_term_snd_spec m term limit ia with ⟨ps, hp⟩ | ⟨p, hp⟩ | ⟨p, hp⟩ <;>
    rw [hp] <;> simp

/-- Whenever a term returns a product list, `totalFound` is the exact
number of upstream entities. -/
theorem process_term_multi_totalFound (m : List (String × RawProduct))
    (term : String) (limit : LimitVal) (ps : List ProductInfo)
    (h : (process_term (some m) term limit false).1 = .multi ps) :
    (process_term (some m) term limit false).2 = m.length := by
  rcases process_term_snd_spec m term limit false with ⟨ps2, hp⟩ | ⟨p, hp⟩ | ⟨p, hp⟩
  · rw [hp]
  · rw [hp] at h; simp at h
  · rw [hp] at h; simp at h

def entitiesTwo : List (String × RawProduct) := [("A", {}), ("B", {})]

/-- Claim C6 counterexample: with `limit = -1` (an integer the claim does
not exclude) and two discovered products, one product is produced, and
`1 ≤ -1` is false — Python slice semantics `keys[:-1]` keep
`len + limit` items rather than at most `limit`
(app.py lines 641-642). -/
theorem C6_counterexample :
    foundCount (process_term (some entitiesTwo) "t" (.lInt (-1)) false).1 = 1
    ∧ ¬ ((1 : ℤ) ≤ -1) :=
  ⟨by decide, by decide⟩

/-- Claim C6 as amended: in article mode at most one product is produced
per term.  In non-article mode, at most 50 products when
`limit = "all"`, at most `n` when the limit is a nonnegative integer or a
numeric string parsing to a nonnegative `n` (a negative limit instead
keeps `len + limit` items by Python slice semantics, and a null limit
applies no cap), and at most 10 when the limit is an unparsable string or
a float.  `totalFound` equals the exact upstream entity count whenever a
product list is returned, and on every path it is either that count or 0
(0 on the degraded paths: missing/empty fetch result, empty key
selection, or a normalization error). -/
theorem C6_result_shaping (raw : Option (List (String × RawProduct)))
    (term : String) (limit : LimitVal) :
    foundCount (process_term raw term limit true).1 ≤ 1
    ∧ (limit = .lStr "all" → foundCount (process_term raw term limit false).1 ≤ 50)
    ∧ (∀ n : ℤ, 0 ≤ n →
        (limit = .lInt n ∨ ∃ s, limit = .lStr s ∧ s ≠ "all" ∧ pyIntParse s = some n) →
        foundCount (process_term raw term limit false).1 ≤ n.toNat)
    ∧ ((∃ s, limit = .lStr s ∧ s ≠ "all" ∧ pyIntParse s = none) ∨ limit = .lFloat →
        foundCount (process_term raw term limit false).1 ≤ 10)
    ∧ (∀ m ps, raw = some m → (process_term raw term limit false).1 = .multi ps →
        (process_term raw term limit false).2 = m.length)
    ∧ (∀ m, raw = some m → ∀ ia : Bool,
        (process_term raw term limit ia).2 = m.length
        ∨ (process_term raw term limit ia).2 = 0) := by
  have hnone : ∀ lim : LimitVal, foundCount (process_term none term lim false).1 = 0 := by
    intro lim
    simp [process_term, foundCount, recordsOf, notFoundInfo]
  refine ⟨process_term_article_found_le raw term limit, ?_, ?_, ?_, ?_, ?_⟩
  · intro hlim
    subst hlim
    cases raw with
    | none => rw [hnone]; exact Nat.zero_le _
    | some entities =>
      exact le_trans (process_term_found_le_keys entities term _)
        (limitKeys_length_all _)
  · intro n hn hcase
    cases raw with
    | none =>
      rcases hcase with rfl | ⟨s, rfl, _, _⟩ <;> (rw [hnone]; exact Nat.zero_le _)
    | some entities =>
      rcases hcase with rfl | ⟨s, rfl, hs, hp⟩
      · exact le_trans (process_term_found_le_keys entities term _)
          (limitKeys_length_int _ n hn)
      · exact le_trans (process_term_found_le_keys entities term _)
          (limitKeys_length_strnum _ s n hs hp hn)
  · intro hcase
    cases raw with
    | none =>
      rcases hcase with ⟨s, rfl, _, _⟩ | rfl <;> (rw [hnone]; exact Nat.zero_le _)
    | some entities =>
      rcases hcase with ⟨s, rfl, hs, hp⟩ | rfl
      · exact le_trans (process_term_found_le_keys entities term _)
          (limitKeys_length_strbad _ s hs hp)
      · exact le_trans (process_term_found_le_keys entities term _)
          (limitKeys_length_float _)
  · intro m ps hm h
    subst hm
    exact process_term_multi_totalFound m term limit ps h
  · intro m hm ia
    subst hm
    exact process_term_totalFound_cases m term limit ia

/-- The record the normalizer produces for the all-defaults raw product. -/
def stubInfo : ProductInfo :=
  { found := true
    searchTerm := "t"
    available := false
    category := ""
    currency := some "CAD" }

theorem C6_witness :
    foundCount (process_term (some entitiesTwo) "t" (.lStr "all") true).1 ≤ 1
    ∧ foundCount (process_term (some entitiesTwo) "t" (.lStr "all") false).1 ≤ 50
    ∧ foundCount (process_term (some entitiesTwo) "t" (.lInt 3) false).1 ≤ (3 : ℤ).toNat
    ∧ foundCount (process_term (some entitiesTwo) "t" .lFloat false).1 ≤ 10
    ∧ (process_term (some entitiesTwo) "t" (.lStr "all") false).2 = entitiesTwo.length
    ∧ ((process_term (some entitiesTwo) "t" (.lStr "all") true).2 = entitiesTwo.length
        ∨ (process_term (some entitiesTwo) "t" (.lStr "all") true).2 = 0) :=
  ⟨(C6_result_shaping (some entitiesTwo) "t" (.lStr "all")).1,
   (C6_result_shaping (some entitiesTwo) "t" (.lStr "all")).2.1 rfl,
   (C6_result_shaping (some entitiesTwo) "t" (.lInt 3)).2.2.1 3 (by decide) (Or.inl rfl),
   (C6_result_shaping (some entitiesTwo) "t" .lFloat).2.2.2.1 (Or.inr rfl),
   (C6_result_shaping (some entitiesTwo) "t" (.lStr "all")).2.2.2.2.1 entitiesTwo
     [stubInfo, stubInfo] rfl (by decide),
   (C6_result_shaping (some entitiesTwo) "t" (.lStr "all")).2.2.2.2.2 entitiesTwo rfl true⟩

/-! ### Claim C9: the progress read-modify-write race
(app.py lines 833-848; `db_lock` is declared at line 35 with the comment
"Database lock for thread safety" but is never acquired anywhere) -/

/-- Two concurrent `process_chunk` requests for the same session, reduced
to their progress update on `processed_terms`: each thread reads the
current counter (the SELECT at app.py lines 835-839) and later writes
back its local value plus its chunk size (the UPDATE issued through
`update_session_progress` at line 848).  `pc = 0`: about to read,
`1`: about to write, `2`: done. -/
structure RaceState where
  db : ℕ
  loc1 : Option ℕ
  loc2 : Option ℕ
  pc1 : ℕ
  pc2 : ℕ
deriving DecidableEq

/-- One scheduler step: run the next instruction of thread 1 (`who =
true`) or thread 2 (`who = false`); a finished thread does nothing. -/
def progressStep (n1 n2 : ℕ) (who : Bool) (s : RaceState) : RaceState :=
  if who then
    match s.pc1, s.loc1 with
    | 0, _ => { s with loc1 := some s.db, pc1 := 1 }
    | 1, some v => { s with db := v + n1, pc1 := 2 }
    | _, _ => s
  else
    match s.pc2, s.loc2 with
    | 0, _ => { s with loc2 := some s.db, pc2 := 1 }
    | 1, some v => { s with db := v + n2, pc2 := 2 }
    | _, _ => s

def runProgress (n1 n2 : ℕ) (sched : List Bool) (s0 : RaceState) : RaceState :=
  sched.foldl (fun s who => progressStep n1 n2 who s) s0

def raceInit : RaceState :=
  { db := 0, loc1 := none, loc2 := none, pc1 := 0, pc2 := 0 }

/-- Claim C9 (code bug): with both chunk sizes 1 and the interleaving
read₁, read₂, write₁, write₂ — legal because nothing in the code serializes
the two requests (the declared `db_lock` is never acquired, and each
request uses its own SQLite connection) — both threads complete but the
final `processed_terms` is 1, not 1 + 1: the first update is lost.  The
claim (no lost updates) states the intended behavior; the code performs an
unguarded read-modify-write. -/
theorem C9_lost_update :
    (runProgress 1 1 [true, false, true, false] raceInit).pc1 = 2
    ∧ (runProgress 1 1 [true, false, true, false] raceInit).pc2 = 2
    ∧ (runProgress 1 1 [true, false, true, false] raceInit).db = 1
    ∧ (1 : ℕ) ≠ 1 + 1
    ∧ (runProgress 1 1 [true, true, false, false] raceInit).db = 1 + 1 :=
  ⟨by decide, by decide, by decide, by decide, by decide⟩

end Markchecker
